import Mathlib

/-!
# A verification development for `random_walk.cpp`

The program is an MPI job.  Rank 0 runs `controller_process`, every other
rank runs `walker_process`.  A walker performs a bounded one-dimensional
random walk and then sends one `MPI_INT` to rank 0; the controller counts the
incoming one-integer messages until it has `world_size - 1` of them.

The embedding is shallow.  C++ `int` values are mathematical integers together
with an explicit range check: an operation whose result leaves the 32-bit
range is reported as `overflow` instead of being wrapped, because signed
overflow is undefined in C++.  Loops are iterated by a fuel counter that
bounds the number of executed loop bodies.
-/

namespace RandomWalk

/-! ## Machine integers -/

/-- Largest value of a 32-bit C++ `int`. -/
def INT_MAX : Int := 2147483647

/-- Smallest value of a 32-bit C++ `int`. -/
def INT_MIN : Int := -2147483648

/-- Range predicate of a 32-bit C++ `int`. -/
def isInt32 (x : Int) : Prop := INT_MIN ≤ x ∧ x ≤ INT_MAX

instance (x : Int) : Decidable (isInt32 x) := by
  unfold isInt32; infer_instance

/-! ## Outcomes and observable events -/

/-- How a piece of code ends: it returns a value, it waits forever inside a
blocking MPI call, it executes an undefined `int` operation, it executes
another undefined operation (a null `char*` given to a stream), or the fuel
of the model is used up before it ends. -/
inductive Outcome (α : Type) where
  | returned (value : α)
  | blocked
  | overflow
  | undefined
  | outOfFuel
  deriving DecidableEq, Repr

/-- Observable actions of one process, in program order. -/
inductive Event where
  | mpiInit
  | mpiFinalize
  | cerr (text : String)
  | cout (text : String)
  | send (payload : List Int) (dest tag : Int)
  | recv (source tag : Int)
  deriving DecidableEq, Repr

/-- Result of running a function: how it ended and what it did until then. -/
structure Run (α : Type) where
  outcome : Outcome α
  log : List Event
  deriving DecidableEq, Repr

/-! ## The walker loop (`random_walk.cpp`, lines 66-76) -/

/-- Local variables of the loop in `walker_process`: `position`, `steps`, and
the number of calls made to `std::rand` so far. -/
structure WalkerState where
  position : Int
  steps : Int
  calls : Nat
  deriving DecidableEq, Repr

/-- Values of `position` and `steps` at line 66-67, before the loop. -/
def walkerInit : WalkerState := ⟨0, 0, 0⟩

/-- The expression `(std::rand() % 2 == 0) ? -1 : 1` of line 73, for the value
`r` returned by `std::rand`. -/
def direction (r : Nat) : Int := if r % 2 = 0 then -1 else 1

/-- Result of evaluating the loop head and, if it holds, one loop body. -/
inductive WalkerStep where
  | exit
  | next (s : WalkerState)
  | overflow
  deriving DecidableEq, Repr

/-- One evaluation of the `while` of line 70 and of its body, lines 73-75.
`rand i` is the value of the `i`-th call of `std::rand` after seeding.
`std::abs(INT_MIN)`, and an addition leaving the `int` range, are undefined
and are reported as `overflow`. -/
def walkerStep (domain_size max_steps : Int) (rand : Nat → Nat) (s : WalkerState) :
    WalkerStep :=
  if s.position = INT_MIN then .overflow
  else if |s.position| ≤ domain_size ∧ s.steps < max_steps then
    let position := s.position + direction (rand s.calls)
    let steps := s.steps + 1
    if isInt32 position ∧ isInt32 steps then .next ⟨position, steps, s.calls + 1⟩
    else .overflow
  else .exit

/-- How a run of the walker loop ends: the loop condition fails in state `s`,
or an undefined `int` operation is executed, or the fuel is used up. -/
inductive WalkerEnd where
  | finished (s : WalkerState)
  | overflow
  | outOfFuel
  deriving DecidableEq, Repr

/-- The `while` loop of lines 70-76, executing at most `fuel` loop bodies. -/
def walkerLoop (domain_size max_steps : Int) (rand : Nat → Nat) :
    Nat → WalkerState → WalkerEnd
  | fuel, s =>
    match walkerStep domain_size max_steps rand s with
    | .exit => .finished s
    | .overflow => .overflow
    | .next s1 =>
      match fuel with
      | 0 => .outOfFuel
      | fuel + 1 => walkerLoop domain_size max_steps rand fuel s1

/-- State seen by the loop head at its `n`-th evaluation (counting from 0),
if the loop gets that far. -/
def walkerIter (domain_size max_steps : Int) (rand : Nat → Nat) :
    Nat → WalkerState → Option WalkerState
  | 0, s => some s
  | n + 1, s =>
    match walkerStep domain_size max_steps rand s with
    | .next s1 => walkerIter domain_size max_steps rand n s1
    | _ => none

/-! ## `walker_process` (lines 61-84) -/

/-- Argument of `std::srand` at line 64: `std::time(NULL)` converted to
`unsigned int`, plus the rank, in 32-bit unsigned arithmetic. -/
def walkerSeed (now world_rank : Int) : Nat := ((now + world_rank) % 2 ^ 32).toNat

/-- Text written to `std::cout` at line 79 (`std::endl` ends the line). -/
def walkerLine (world_rank steps : Int) : String :=
  "Rank " ++ toString world_rank ++ ": Walker finished in " ++ toString steps ++ " steps." ++ "\n"

/-- The function `walker_process`.  `stdRand seed i` is the value of the
`i`-th call of `std::rand` after `std::srand(seed)`; `now` is the value of
`std::time(NULL)`.  The `MPI_Send` of line 83 carries one `int` of value 1 to
rank 0 with tag 0. -/
def walker_process (stdRand : Nat → Nat → Nat) (now world_rank domain_size max_steps : Int)
    (fuel : Nat) : Run Unit :=
  match walkerLoop domain_size max_steps (stdRand (walkerSeed now world_rank)) fuel
      walkerInit with
  | .finished s => ⟨.returned (), [.cout (walkerLine world_rank s.steps), .send [1] 0 0]⟩
  | .overflow => ⟨.overflow, []⟩
  | .outOfFuel => ⟨.outOfFuel, []⟩

/-! ## `controller_process` (lines 87-118) -/

/-- A message pending at rank 0: its envelope and its `MPI_INT` items.
`MPI_Get_count` reports the number of items. -/
structure Message where
  source : Int
  tag : Int
  payload : List Int
  deriving DecidableEq, Repr

/-- Variables of the loop in `controller_process`: the tally, the messages
that arrive at rank 0 and are not yet received (in arrival order), and the
receives done so far. -/
structure ControllerState where
  completed_walkers : Int
  inbox : List Message
  log : List Event
  deriving DecidableEq, Repr

/-- State at line 89-90, before the loop. -/
def controllerInit (inbox : List Message) : ControllerState := ⟨0, inbox, []⟩

/-- Result of evaluating the loop head and, if it holds, one loop body. -/
inductive ControllerStep where
  | exit
  | next (s : ControllerState)
  | blocked
  deriving DecidableEq, Repr

/-- One evaluation of the `while` of line 93 and of its body, lines 95-113.
`MPI_Probe` with `MPI_ANY_SOURCE` and `MPI_ANY_TAG` waits for the earliest
pending message and does not remove it; with no message ever arriving it
never returns.  A message of one item is received and counted; any other
message is left pending.  The increment happens only below `total_walkers`,
so it stays inside the `int` range. -/
def controllerStep (total_walkers : Int) (s : ControllerState) : ControllerStep :=
  if s.completed_walkers < total_walkers then
    match s.inbox with
    | [] => .blocked
    | m :: rest =>
      if m.payload.length = 1 then
        .next ⟨s.completed_walkers + 1, rest, s.log ++ [.recv m.source m.tag]⟩
      else .next s
  else .exit

/-- How a run of the controller loop ends, and in which state: the loop
condition fails, or `MPI_Probe` waits forever, or the fuel is used up. -/
inductive ControllerEnd where
  | finished (s : ControllerState)
  | blocked (s : ControllerState)
  | outOfFuel (s : ControllerState)
  deriving DecidableEq, Repr

/-- The `while` loop of lines 93-114, executing at most `fuel` loop bodies. -/
def controllerLoop (total_walkers : Int) : Nat → ControllerState → ControllerEnd
  | fuel, s =>
    match controllerStep total_walkers s with
    | .exit => .finished s
    | .blocked => .blocked s
    | .next s1 =>
      match fuel with
      | 0 => .outOfFuel s1
      | fuel + 1 => controllerLoop total_walkers fuel s1

/-- State seen by the loop head at its `n`-th evaluation (counting from 0),
if the loop gets that far. -/
def controllerIter (total_walkers : Int) : Nat → ControllerState → Option ControllerState
  | 0, s => some s
  | n + 1, s =>
    match controllerStep total_walkers s with
    | .next s1 => controllerIter total_walkers n s1
    | _ => none

/-- Text written to `std::cout` at line 117. -/
def controllerLine (total_walkers : Int) : String :=
  "Controller: All " ++ toString total_walkers ++ " walkers have finished." ++ "\n"

/-- The function `controller_process`, for the messages `inbox` arriving at
rank 0. -/
def controller_process (world_size : Int) (inbox : List Message) (fuel : Nat) : Run Unit :=
  let total_walkers := world_size - 1
  match controllerLoop total_walkers fuel (controllerInit inbox) with
  | .finished s => ⟨.returned (), s.log ++ [.cout (controllerLine total_walkers)]⟩
  | .blocked s => ⟨.blocked, s.log⟩
  | .outOfFuel s => ⟨.outOfFuel, s.log⟩

/-! ## Observations on logs -/

/-- Texts written to `std::cout` in a log, in order. -/
def printed (log : List Event) : List String :=
  log.filterMap fun e => match e with
    | .cout text => some text
    | _ => none

/-- Texts written to `std::cerr` in a log, in order. -/
def diagnosed (log : List Event) : List String :=
  log.filterMap fun e => match e with
    | .cerr text => some text
    | _ => none

/-- Number of completed `MPI_Recv` calls in a log. -/
def receipts (log : List Event) : Nat :=
  log.countP fun e => match e with
    | .recv _ _ => true
    | _ => false

/-- Messages that a log sends, as they arrive at their destination from the
process of rank `rank`. -/
def sent (rank : Int) (log : List Event) : List Message :=
  log.filterMap fun e => match e with
    | .send payload _ tag => some ⟨rank, tag, payload⟩
    | _ => none

/-- State in which a run of the controller loop ended. -/
def ControllerEnd.state : ControllerEnd → ControllerState
  | .finished s => s
  | .blocked s => s
  | .outOfFuel s => s

/-! ## `main` (lines 16-58) -/

/-- What one process gets from its surroundings: the values written by
`MPI_Comm_size` and `MPI_Comm_rank`, the clock, the library functions
`std::rand` (per seed) and `std::atoi`, and the messages arriving at it. -/
structure Env where
  world_size : Int
  world_rank : Int
  now : Int
  stdRand : Nat → Nat → Nat
  atoi : String → Int
  inbox : List Message

/-- Text written to `std::cerr` at lines 33-34. -/
def usageLine (argv0 : String) : String :=
  "Usage: mpirun -np <num_processes> " ++ argv0 ++ " <domain_size> <max_steps>" ++ "\n"

/-- The function `main` on one process.  `argc` is the length of `argv`, the
arguments left to the program after `MPI_Init`.  With `argc = 0` the pointer
`argv[0]` is null: rank 0 has then written the first part of the usage text
when line 33 gives the null pointer to `std::cerr`, which is undefined.  The
process returns from `main` only if the function it calls returns. -/
def main (env : Env) (argv : List String) (fuel : Nat) : Run Int :=
  let argc : Int := argv.length
  if argc ≠ 3 then
    if env.world_rank = 0 then
      match argv with
      | [] => ⟨.undefined, [.mpiInit, .cerr "Usage: mpirun -np <num_processes> "]⟩
      | argv0 :: _ => ⟨.returned 1, [.mpiInit, .cerr (usageLine argv0), .mpiFinalize]⟩
    else ⟨.returned 1, [.mpiInit, .mpiFinalize]⟩
  else
    let domain_size := env.atoi (argv.getD 1 "")
    let max_steps := env.atoi (argv.getD 2 "")
    let body : Run Unit :=
      if env.world_rank = 0 then controller_process env.world_size env.inbox fuel
      else walker_process env.stdRand env.now env.world_rank domain_size max_steps fuel
    match body.outcome with
    | .returned _ => ⟨.returned 0, [.mpiInit] ++ body.log ++ [.mpiFinalize]⟩
    | .blocked => ⟨.blocked, [.mpiInit] ++ body.log⟩
    | .overflow => ⟨.overflow, [.mpiInit] ++ body.log⟩
    | .undefined => ⟨.undefined, [.mpiInit] ++ body.log⟩
    | .outOfFuel => ⟨.outOfFuel, [.mpiInit] ++ body.log⟩

/-! ## A job of several ranks -/

/-- The processes of one `mpirun` job with `world_size` ranks: rank `r` runs
`main` on the common `argv`, and `envOf r` gives it its clock, its library
functions and the messages arriving at it. -/
def job (world_size : Nat) (envOf : Nat → Env) (argv : List String) (fuel : Nat) :
    List (Run Int) :=
  (List.range world_size).map fun r =>
    main { envOf r with world_size := world_size, world_rank := r } argv fuel

/-- Everything that the ranks `1 .. world_size - 1` of a job send, listed by
rank. -/
def notifications (world_size : Nat) (envOf : Nat → Env) (argv : List String) (fuel : Nat) :
    List Message :=
  (List.range' 1 (world_size - 1)).flatMap fun r =>
    sent r (main { envOf r with world_size := world_size, world_rank := r } argv fuel).log

/-! ## Notions used to state the properties -/

/-- Sum of the first `k` directions drawn from `rand`: `d_1 + ... + d_k` with
`d_i = direction (rand (i - 1))`. -/
def directionSum (rand : Nat → Nat) : Nat → Int
  | 0 => 0
  | k + 1 => directionSum rand k + direction (rand k)

/-- The completion line of a worker in the words of the specification,
without line end. -/
def specWorkerLine (id steps : Int) : String :=
  "Worker " ++ toString id ++ ": finished in " ++ toString steps ++ " steps."

/-- The summary line of the coordinator in the words of the specification,
without line end. -/
def specControllerLine (workers : Int) : String :=
  "Controller: All " ++ toString workers ++ " workers have finished."

/-- Facts that hold of the loop variables whenever the loop head of
`walker_process` is evaluated. -/
structure WalkerInv (max_steps : Int) (rand : Nat → Nat) (s : WalkerState) : Prop where
  lower : -s.steps ≤ s.position
  upper : s.position ≤ s.steps
  budget : s.steps ≤ max max_steps 0
  count : (s.calls : Int) = s.steps
  sum : s.position = directionSum rand s.calls

/-! ## Checks of the embedding on concrete runs -/

example : walkerLoop 0 5 (fun _ => 1) 5 walkerInit = .finished ⟨1, 1, 1⟩ := by decide

example : walkerLoop 2 5 (fun i => i) 5 walkerInit = .finished ⟨-1, 5, 5⟩ := by decide

example : walkerLoop 0 0 (fun i => i) 0 walkerInit = .finished ⟨0, 0, 0⟩ := by decide

example : walkerLine 2 17 = "Rank 2: Walker finished in 17 steps.\n" := by decide

example : walker_process (fun _ i => i) 100 1 2 5 5 =
    ⟨.returned (), [.cout "Rank 1: Walker finished in 5 steps.\n", .send [1] 0 0]⟩ := by decide

example : controller_process 4 [⟨2, 0, [1]⟩, ⟨1, 0, [1]⟩, ⟨3, 0, [1]⟩] 3 =
    ⟨.returned (), [.recv 2 0, .recv 1 0, .recv 3 0,
      .cout "Controller: All 3 walkers have finished.\n"]⟩ := by decide

example : controller_process 4 [⟨2, 0, [1]⟩, ⟨1, 0, [1]⟩] 3 =
    ⟨.blocked, [.recv 2 0, .recv 1 0]⟩ := by decide

example : controller_process 2 [⟨1, 0, [1, 1]⟩, ⟨1, 0, [1]⟩] 9 = ⟨.outOfFuel, []⟩ := by decide

example : main ⟨4, 0, 0, fun _ i => i, fun _ => 0, []⟩ ["a"] 0 =
    ⟨.returned 1, [.mpiInit,
      .cerr "Usage: mpirun -np <num_processes> a <domain_size> <max_steps>\n",
      .mpiFinalize]⟩ := by decide

example : main ⟨4, 0, 0, fun _ i => i, fun _ => 0, []⟩ [] 0 =
    ⟨.undefined, [.mpiInit, .cerr "Usage: mpirun -np <num_processes> "]⟩ := by decide

example : main ⟨4, 2, 0, fun _ i => i, fun _ => 0, []⟩ [] 0 =
    ⟨.returned 1, [.mpiInit, .mpiFinalize]⟩ := by decide

example : ∀ p ∈ ([
      [⟨1, 0, [1]⟩, ⟨2, 0, [1]⟩, ⟨3, 0, [1]⟩],
      [⟨1, 0, [1]⟩, ⟨3, 0, [1]⟩, ⟨2, 0, [1]⟩],
      [⟨2, 0, [1]⟩, ⟨1, 0, [1]⟩, ⟨3, 0, [1]⟩],
      [⟨2, 0, [1]⟩, ⟨3, 0, [1]⟩, ⟨1, 0, [1]⟩],
      [⟨3, 0, [1]⟩, ⟨1, 0, [1]⟩, ⟨2, 0, [1]⟩],
      [⟨3, 0, [1]⟩, ⟨2, 0, [1]⟩, ⟨1, 0, [1]⟩]] : List (List Message)),
    (controller_process 4 p 3).outcome = .returned () ∧
    receipts (controller_process 4 p 3).log = 3 ∧
    printed (controller_process 4 p 3).log = ["Controller: All 3 walkers have finished.\n"] := by
  decide

example : (job 3 (fun _ => ⟨0, 0, 0, fun _ i => i, fun _ => 2, [⟨2, 0, [1]⟩, ⟨1, 0, [1]⟩]⟩)
    ["walk", "5", "2"] 2).map (fun run => printed run.log) =
    [["Controller: All 2 walkers have finished.\n"],
      ["Rank 1: Walker finished in 2 steps.\n"], ["Rank 2: Walker finished in 2 steps.\n"]] := by
  decide

/-! ## Lemmas on the walker loop -/

theorem direction_cases (r : Nat) : direction r = -1 ∨ direction r = 1 := by
  unfold direction
  split
  · exact Or.inl rfl
  · exact Or.inr rfl

theorem walkerInv_init (max_steps : Int) (rand : Nat → Nat) :
    WalkerInv max_steps rand walkerInit := by
  constructor <;> simp [walkerInit, directionSum]

/-- Under the invariant no `int` operation of the loop leaves the range, so
the step is decided by the loop condition alone. -/
theorem walkerStep_of_inv {domain_size max_steps : Int} {rand : Nat → Nat} {s : WalkerState}
    (hm : isInt32 max_steps) (inv : WalkerInv max_steps rand s) :
    walkerStep domain_size max_steps rand s =
      if |s.position| ≤ domain_size ∧ s.steps < max_steps then
        .next ⟨s.position + direction (rand s.calls), s.steps + 1, s.calls + 1⟩
      else .exit := by
  obtain ⟨h1, h2, h3, -, -⟩ := inv
  have hM : max_steps ≤ 2147483647 := hm.2
  have h3a : s.steps ≤ max_steps ∨ s.steps ≤ 0 := by
    rcases le_max_iff.mp h3 with h | h
    · exact Or.inl h
    · exact Or.inr h
  have hmin : s.position ≠ INT_MIN := by
    unfold INT_MIN; omega
  unfold walkerStep
  rw [if_neg hmin]
  split
  · rename_i hc
    have hr : isInt32 (s.position + direction (rand s.calls)) ∧ isInt32 (s.steps + 1) := by
      unfold isInt32 INT_MIN INT_MAX
      rcases direction_cases (rand s.calls) with hd | hd <;> rw [hd] <;> omega
    simp only [hr, and_self, if_true]
  · rfl

theorem walkerInv_next {domain_size max_steps : Int} {rand : Nat → Nat} {s s1 : WalkerState}
    (hm : isInt32 max_steps) (inv : WalkerInv max_steps rand s)
    (h : walkerStep domain_size max_steps rand s = .next s1) :
    WalkerInv max_steps rand s1 ∧ |s.position| ≤ domain_size ∧ s.steps < max_steps ∧
      s1 = ⟨s.position + direction (rand s.calls), s.steps + 1, s.calls + 1⟩ := by
  rw [walkerStep_of_inv hm inv] at h
  split at h
  · rename_i hc
    injection h with h
    subst h
    refine ⟨?_, hc.1, hc.2, rfl⟩
    obtain ⟨h1, h2, h3, h4, h5⟩ := inv
    have hd := direction_cases (rand s.calls)
    constructor
    · show -(s.steps + 1) ≤ s.position + direction (rand s.calls)
      rcases hd with hd | hd <;> rw [hd] <;> omega
    · show s.position + direction (rand s.calls) ≤ s.steps + 1
      rcases hd with hd | hd <;> rw [hd] <;> omega
    · show s.steps + 1 ≤ max max_steps 0
      exact le_max_of_le_left (by omega)
    · show ((s.calls + 1 : Nat) : Int) = s.steps + 1
      push_cast; omega
    · show s.position + direction (rand s.calls) = directionSum rand (s.calls + 1)
      rw [directionSum, ← h5]
  · cases h

/-- Every state that the loop head sees satisfies the invariant. -/
theorem walkerInv_iter {domain_size max_steps : Int} {rand : Nat → Nat} (hm : isInt32 max_steps) :
    ∀ (n : Nat) (s t : WalkerState), WalkerInv max_steps rand s →
      walkerIter domain_size max_steps rand n s = some t → WalkerInv max_steps rand t := by
  intro n
  induction n with
  | zero =>
    intro s t inv h
    simp only [walkerIter, Option.some.injEq] at h
    exact h ▸ inv
  | succ n ih =>
    intro s t inv h
    rw [walkerIter] at h
    split at h
    · rename_i s1 hs
      exact ih s1 t (walkerInv_next hm inv hs).1 h
    · cases h

/-- With fuel for the remaining budget the loop ends by its condition, and
its final state is described by the first index at which the condition
fails. -/
theorem walkerLoop_spec {domain_size max_steps : Int} {rand : Nat → Nat} (hm : isInt32 max_steps) :
    ∀ (fuel : Nat) (s : WalkerState), WalkerInv max_steps rand s →
      (max_steps - s.steps).toNat ≤ fuel →
      ∃ t, walkerLoop domain_size max_steps rand fuel s = .finished t ∧
        WalkerInv max_steps rand t ∧ s.calls ≤ t.calls ∧
        (domain_size < |t.position| ∨ max_steps ≤ t.steps) ∧
        ∀ k, s.calls ≤ k → k < t.calls →
          |directionSum rand k| ≤ domain_size ∧ (k : Int) < max_steps := by
  intro fuel
  induction fuel with
  | zero =>
    intro s inv hf
    have hle : max_steps ≤ s.steps := by omega
    refine ⟨s, ?_, inv, le_refl _, Or.inr hle, fun k h1 h2 => absurd h2 (by omega)⟩
    rw [walkerLoop, walkerStep_of_inv hm inv, if_neg (by omega)]
  | succ fuel ih =>
    intro s inv hf
    by_cases hc : |s.position| ≤ domain_size ∧ s.steps < max_steps
    · have hs := @walkerStep_of_inv domain_size _ _ _ hm inv
      rw [if_pos hc] at hs
      have inv1 := (walkerInv_next hm inv hs).1
      obtain ⟨t, ht, invt, hle, hstop, hbefore⟩ := ih _ inv1 (by show _ ≤ fuel; simp only; omega)
      refine ⟨t, ?_, invt, ?_, hstop, ?_⟩
      · rw [walkerLoop, hs]
        exact ht
      · simp only at hle; omega
      · intro k h1 h2
        rcases Nat.eq_or_lt_of_le h1 with h | h
        · subst h
          refine ⟨?_, ?_⟩
          · rw [← inv.sum]; exact hc.1
          · rw [inv.count]; exact hc.2
        · exact hbefore k h h2
    · refine ⟨s, ?_, inv, le_refl _, ?_, fun k h1 h2 => absurd h2 (by omega)⟩
      · rw [walkerLoop, walkerStep_of_inv hm inv, if_neg hc]
      · by_cases h1 : |s.position| ≤ domain_size
        · exact Or.inr (by
            by_contra h2
            exact hc ⟨h1, by omega⟩)
        · exact Or.inl (by omega)

/-- More fuel does not change the result of a loop that ended by its
condition. -/
theorem walkerLoop_mono {domain_size max_steps : Int} {rand : Nat → Nat} :
    ∀ (fuel fuel1 : Nat) (s t : WalkerState), fuel ≤ fuel1 →
      walkerLoop domain_size max_steps rand fuel s = .finished t →
      walkerLoop domain_size max_steps rand fuel1 s = .finished t := by
  intro fuel
  induction fuel with
  | zero =>
    intro fuel1 s t _ h
    rw [walkerLoop] at h ⊢
    cases hs : walkerStep domain_size max_steps rand s with
    | exit => rw [hs] at h; exact h
    | overflow => rw [hs] at h; cases h
    | next s1 => rw [hs] at h; cases h
  | succ fuel ih =>
    intro fuel1 s t hle h
    obtain ⟨f, rfl⟩ : ∃ f, fuel1 = f + 1 := ⟨fuel1 - 1, by omega⟩
    rw [walkerLoop] at h ⊢
    cases hs : walkerStep domain_size max_steps rand s with
    | exit => rw [hs] at h; exact h
    | overflow => rw [hs] at h; cases h
    | next s1 => rw [hs] at h; exact ih f s1 t (by omega) h

theorem walkerLoop_no_overflow {domain_size max_steps : Int} {rand : Nat → Nat}
    (hm : isInt32 max_steps) :
    ∀ (fuel : Nat) (s : WalkerState), WalkerInv max_steps rand s →
      walkerLoop domain_size max_steps rand fuel s ≠ .overflow := by
  intro fuel
  induction fuel with
  | zero =>
    intro s inv
    rw [walkerLoop, walkerStep_of_inv hm inv]
    by_cases hc : |s.position| ≤ domain_size ∧ s.steps < max_steps
    · rw [if_pos hc]; simp
    · rw [if_neg hc]; simp
  | succ fuel ih =>
    intro s inv
    by_cases hc : |s.position| ≤ domain_size ∧ s.steps < max_steps
    · have hs := @walkerStep_of_inv domain_size _ _ _ hm inv
      rw [if_pos hc] at hs
      rw [walkerLoop, hs]
      exact ih _ (walkerInv_next hm inv hs).1
    · rw [walkerLoop, walkerStep_of_inv hm inv, if_neg hc]
      simp

theorem walkerIter_domain {domain_size max_steps : Int} {rand : Nat → Nat}
    (hm : isInt32 max_steps) :
    ∀ (n : Nat) (s t : WalkerState), WalkerInv max_steps rand s →
      |s.position| ≤ domain_size + 1 →
      walkerIter domain_size max_steps rand n s = some t → |t.position| ≤ domain_size + 1 := by
  intro n
  induction n with
  | zero =>
    intro s t _ hp h
    simp only [walkerIter, Option.some.injEq] at h
    exact h ▸ hp
  | succ n ih =>
    intro s t inv _ h
    rw [walkerIter] at h
    split at h
    · rename_i s1 hs
      obtain ⟨inv1, hc, -, rfl⟩ := walkerInv_next hm inv hs
      refine ih _ t inv1 ?_ h
      show |s.position + direction (rand s.calls)| ≤ domain_size + 1
      have h1 := abs_le.mp hc
      refine abs_le.mpr ?_
      rcases direction_cases (rand s.calls) with hd | hd <;> rw [hd] <;> constructor <;> omega
    · cases h

/-! ## The walk: termination, stopping rule, boundary cases -/

/-- C1: for `max_steps ≥ 0` (and any `domain_size`, any values of
`std::rand`) the loop of `walker_process` ends by its own condition within
`max_steps` executed bodies: fuel `max_steps` is enough, every larger fuel
gives the same final state, the number of bodies run equals `steps`, and at
exit `|position| > domain_size` or `steps = max_steps`. -/
theorem walker_terminates_and_stops (domain_size max_steps : Int) (rand : Nat → Nat)
    (hm0 : 0 ≤ max_steps) (hm : isInt32 max_steps) :
    ∃ t, (∀ fuel, max_steps.toNat ≤ fuel →
        walkerLoop domain_size max_steps rand fuel walkerInit = .finished t) ∧
      (t.calls : Int) = t.steps ∧ t.steps ≤ max_steps ∧
      (domain_size < |t.position| ∨ t.steps = max_steps) := by
  obtain ⟨t, ht, inv, -, hstop, -⟩ :=
    @walkerLoop_spec domain_size _ rand hm max_steps.toNat walkerInit
      (walkerInv_init _ _) (by simp [walkerInit])
  have hb : t.steps ≤ max_steps := by
    have := inv.budget
    rwa [max_eq_left hm0] at this
  refine ⟨t, fun fuel hf => walkerLoop_mono _ _ _ _ hf ht, inv.count, hb, ?_⟩
  rcases hstop with h | h
  · exact Or.inl h
  · exact Or.inr (le_antisymm hb h)

theorem walker_terminates_and_stops_witness :
    ∃ t, (∀ fuel, (3 : Int).toNat ≤ fuel →
        walkerLoop 1 3 (fun i => i) fuel walkerInit = .finished t) ∧
      (t.calls : Int) = t.steps ∧ t.steps ≤ 3 ∧ ((1 : Int) < |t.position| ∨ t.steps = 3) :=
  walker_terminates_and_stops 1 3 (fun i => i) (by decide) (by decide)

/-- C3: for `domain_size ≥ 0` and `max_steps ≥ 0` the reported step count is
`min(max_steps, T)`, where `T` is the least `k ≥ 1` whose partial sum of
directions leaves the domain, and it is `max_steps` when no partial sum ever
leaves the domain; the final position is the partial sum of the first `steps`
directions. -/
theorem walker_steps_first_violation (domain_size max_steps : Int) (rand : Nat → Nat)
    (hd : 0 ≤ domain_size) (hm0 : 0 ≤ max_steps) (hm : isInt32 max_steps) :
    ∃ t, (∀ fuel, max_steps.toNat ≤ fuel →
        walkerLoop domain_size max_steps rand fuel walkerInit = .finished t) ∧
      (∀ T : Nat, 1 ≤ T → domain_size < |directionSum rand T| →
        (∀ k, 1 ≤ k → k < T → |directionSum rand k| ≤ domain_size) →
        t.steps = min max_steps (T : Int)) ∧
      ((∀ k : Nat, 1 ≤ k → |directionSum rand k| ≤ domain_size) → t.steps = max_steps) ∧
      t.position = directionSum rand t.steps.toNat := by
  obtain ⟨t, ht, inv, -, hstop, hbefore⟩ :=
    @walkerLoop_spec domain_size _ rand hm max_steps.toNat walkerInit
      (walkerInv_init _ _) (by simp [walkerInit])
  have hb : t.steps ≤ max_steps := by
    have := inv.budget
    rwa [max_eq_left hm0] at this
  have hcnt := inv.count
  have hpos := inv.sum
  have hzero : |directionSum rand 0| ≤ domain_size := by simpa [directionSum] using hd
  refine ⟨t, fun fuel hf => walkerLoop_mono _ _ _ _ hf ht, ?_, ?_, ?_⟩
  · intro T hT hout hmin
    have h1 : ¬ T < t.calls := fun h =>
      absurd (hbefore T (Nat.zero_le _) h).1 (not_le.mpr hout)
    rcases Nat.eq_or_lt_of_le (Nat.le_of_not_lt h1) with h | h
    · have : t.steps = (T : Int) := by omega
      rw [this] at hb ⊢
      exact (min_eq_right hb).symm
    · have hin : |directionSum rand t.calls| ≤ domain_size := by
        rcases Nat.eq_zero_or_pos t.calls with h0 | h0
        · rw [h0]; exact hzero
        · exact hmin _ h0 h
      have : t.steps = max_steps := by
        rcases hstop with h2 | h2
        · rw [hpos] at h2; exact absurd hin (not_le.mpr h2)
        · exact le_antisymm hb h2
      rw [this]
      exact (min_eq_left (by omega)).symm
  · intro hall
    have hin : |directionSum rand t.calls| ≤ domain_size := by
      rcases Nat.eq_zero_or_pos t.calls with h0 | h0
      · rw [h0]; exact hzero
      · exact hall _ h0
    rcases hstop with h2 | h2
    · rw [hpos] at h2; exact absurd hin (not_le.mpr h2)
    · exact le_antisymm hb h2
  · rw [hpos]
    congr 1
    omega

theorem walker_steps_first_violation_witness :
    ∃ t, (∀ fuel, (9 : Int).toNat ≤ fuel →
        walkerLoop 1 9 (fun _ => 1) fuel walkerInit = .finished t) ∧
      (∀ T : Nat, 1 ≤ T → (1 : Int) < |directionSum (fun _ => 1) T| →
        (∀ k, 1 ≤ k → k < T → |directionSum (fun _ => 1) k| ≤ 1) →
        t.steps = min 9 (T : Int)) ∧
      ((∀ k : Nat, 1 ≤ k → |directionSum (fun _ => 1) k| ≤ 1) → t.steps = 9) ∧
      t.position = directionSum (fun _ => 1) t.steps.toNat :=
  walker_steps_first_violation 1 9 (fun _ => 1) (by decide) (by decide) (by decide)

/-- C5: for `max_steps ≤ 0` (zero or negative), whatever `domain_size`, the
clock and `std::rand` are, the loop condition fails at its first evaluation:
no body runs, `steps` and `position` stay 0, and `walker_process` returns
after printing its line with 0 steps and sending its notification. -/
theorem walker_nonpositive_budget (stdRand : Nat → Nat → Nat)
    (now world_rank domain_size max_steps : Int) (fuel : Nat) (hm : max_steps ≤ 0) :
    walkerStep domain_size max_steps (stdRand (walkerSeed now world_rank)) walkerInit = .exit ∧
    walkerLoop domain_size max_steps (stdRand (walkerSeed now world_rank)) fuel walkerInit =
      .finished ⟨0, 0, 0⟩ ∧
    walker_process stdRand now world_rank domain_size max_steps fuel =
      ⟨.returned (), [.cout ("Rank " ++ toString world_rank ++ ": Walker finished in "
        ++ toString (0 : Int) ++ " steps." ++ "\n"), .send [1] 0 0]⟩ := by
  have hs : walkerStep domain_size max_steps (stdRand (walkerSeed now world_rank)) walkerInit
      = .exit := by
    unfold walkerStep
    have h1 : walkerInit.position ≠ INT_MIN := by decide
    have h2 : ¬ (|walkerInit.position| ≤ domain_size ∧ walkerInit.steps < max_steps) := by
      intro h
      have : (0 : Int) < max_steps := h.2
      omega
    rw [if_neg h1, if_neg h2]
  have hl : walkerLoop domain_size max_steps (stdRand (walkerSeed now world_rank)) fuel
      walkerInit = .finished ⟨0, 0, 0⟩ := by
    rw [walkerLoop, hs]; rfl
  refine ⟨hs, hl, ?_⟩
  rw [walker_process, hl]
  rfl

theorem walker_nonpositive_budget_witness :
    walkerStep 5 (-2) ((fun _ i => i) (walkerSeed 1000 2)) walkerInit = .exit ∧
    walkerLoop 5 (-2) ((fun _ i => i) (walkerSeed 1000 2)) 7 walkerInit = .finished ⟨0, 0, 0⟩ ∧
    walker_process (fun _ i => i) 1000 2 5 (-2) 7 =
      ⟨.returned (), [.cout ("Rank " ++ toString (2 : Int) ++ ": Walker finished in "
        ++ toString (0 : Int) ++ " steps." ++ "\n"), .send [1] 0 0]⟩ :=
  walker_nonpositive_budget (fun _ i => i) 1000 2 5 (-2) 7 (by decide)

theorem walkerLoop_zero_domain (max_steps : Int) (rand : Nat → Nat) (fuel : Nat)
    (h1 : 1 ≤ max_steps) (hm : isInt32 max_steps) (hf : 1 ≤ fuel) :
    walkerLoop 0 max_steps rand fuel walkerInit = .finished ⟨direction (rand 0), 1, 1⟩ := by
  have inv0 := walkerInv_init max_steps rand
  have hs0 : walkerStep 0 max_steps rand walkerInit = .next ⟨direction (rand 0), 1, 1⟩ := by
    rw [walkerStep_of_inv hm inv0, if_pos ⟨by simp [walkerInit], by simp only [walkerInit]; omega⟩]
    simp [walkerInit]
  have inv1 := (walkerInv_next hm inv0 hs0).1
  have hs1 : walkerStep 0 max_steps rand ⟨direction (rand 0), 1, 1⟩ = .exit := by
    rw [walkerStep_of_inv hm inv1, if_neg]
    intro h
    have h2 : |direction (rand 0)| ≤ 0 := h.1
    rcases direction_cases (rand 0) with hd | hd <;> rw [hd] at h2 <;> simp at h2
  have hl1 : walkerLoop 0 max_steps rand 1 walkerInit = .finished ⟨direction (rand 0), 1, 1⟩ := by
    rw [walkerLoop, hs0]
    show walkerLoop 0 max_steps rand 0 _ = _
    rw [walkerLoop, hs1]
  exact walkerLoop_mono _ _ _ _ hf hl1

/-- C6, as the code has it: with `domain_size = 0` and `max_steps ≥ 1` the
walker stops after its first step, so `steps = 1` and the printed line reports
1 step. -/
theorem walker_zero_domain_one_step (stdRand : Nat → Nat → Nat) (now world_rank max_steps : Int)
    (fuel : Nat) (h1 : 1 ≤ max_steps) (hm : isInt32 max_steps) (hf : 1 ≤ fuel) :
    walkerLoop 0 max_steps (stdRand (walkerSeed now world_rank)) fuel walkerInit =
      .finished ⟨direction (stdRand (walkerSeed now world_rank) 0), 1, 1⟩ ∧
    walker_process stdRand now world_rank 0 max_steps fuel =
      ⟨.returned (), [.cout ("Rank " ++ toString world_rank ++ ": Walker finished in "
        ++ toString (1 : Int) ++ " steps." ++ "\n"), .send [1] 0 0]⟩ := by
  have hl := walkerLoop_zero_domain max_steps (stdRand (walkerSeed now world_rank)) fuel h1 hm hf
  refine ⟨hl, ?_⟩
  rw [walker_process, hl]
  rfl

theorem walker_zero_domain_one_step_witness :
    walkerLoop 0 4 ((fun _ i => i) (walkerSeed 77 3)) 4 walkerInit =
      .finished ⟨direction ((fun _ i => i) (walkerSeed 77 3) 0), 1, 1⟩ ∧
    walker_process (fun _ i => i) 77 3 0 4 4 =
      ⟨.returned (), [.cout ("Rank " ++ toString (3 : Int) ++ ": Walker finished in "
        ++ toString (1 : Int) ++ " steps." ++ "\n"), .send [1] 0 0]⟩ :=
  walker_zero_domain_one_step (fun _ i => i) 77 3 4 4 (by decide) (by decide) (by decide)

/-- C6 as written fails for `max_steps = 0`: with `domain_size = 0` the walker
takes no step, and reports 0 steps, not 1. -/
theorem walker_zero_domain_zero_budget :
    (0 : Int) ≤ 0 ∧
    walkerLoop 0 0 (fun _ => 1) 5 walkerInit = .finished ⟨0, 0, 0⟩ ∧
    (⟨0, 0, 0⟩ : WalkerState).steps ≠ 1 ∧
    walker_process (fun _ _ => 1) 0 1 0 0 5 =
      ⟨.returned (), [.cout "Rank 1: Walker finished in 0 steps.\n", .send [1] 0 0]⟩ := by
  decide

/-! ## The walk: absence of `int` overflow -/

/-- C10: for `int` values of `max_steps` (and any `domain_size`), every state
`t` that the loop head of `walker_process` sees satisfies
`|position| ≤ steps ≤ max(max_steps, 0)`, and `|position| ≤ domain_size + 1`
when `domain_size ≥ 0`; `position` and `steps` are in the `int` range,
`std::abs` is not applied to `INT_MIN`, the next step is not an overflow, and
no run of the loop ends in an overflow. -/
theorem walker_no_int_overflow (domain_size max_steps : Int) (rand : Nat → Nat)
    (n fuel : Nat) (t : WalkerState) (hm : isInt32 max_steps)
    (ht : walkerIter domain_size max_steps rand n walkerInit = some t) :
    |t.position| ≤ t.steps ∧ t.steps ≤ max max_steps 0 ∧
    (0 ≤ domain_size → |t.position| ≤ domain_size + 1) ∧
    isInt32 t.position ∧ isInt32 t.steps ∧ isInt32 (|t.position|) ∧ t.position ≠ INT_MIN ∧
    walkerStep domain_size max_steps rand t ≠ .overflow ∧
    walkerLoop domain_size max_steps rand fuel walkerInit ≠ .overflow := by
  have inv := walkerInv_iter hm n walkerInit t (walkerInv_init _ _) ht
  have h1 := inv.lower
  have h2 := inv.upper
  have h3 := inv.budget
  have hM : max_steps ≤ 2147483647 := hm.2
  have h3a : t.steps ≤ max_steps ∨ t.steps ≤ 0 := by
    rcases le_max_iff.mp h3 with h | h
    · exact Or.inl h
    · exact Or.inr h
  have habs : |t.position| ≤ t.steps := abs_le.mpr ⟨h1, h2⟩
  have habs0 : 0 ≤ |t.position| := abs_nonneg _
  refine ⟨habs, h3, ?_, ?_, ?_, ?_, ?_, ?_, ?_⟩
  · intro hd
    exact walkerIter_domain hm n walkerInit t (walkerInv_init _ _)
      (by simp only [walkerInit, abs_zero]; omega) ht
  · unfold isInt32 INT_MIN INT_MAX; omega
  · unfold isInt32 INT_MIN INT_MAX; omega
  · unfold isInt32 INT_MIN INT_MAX; omega
  · unfold INT_MIN; omega
  · rw [walkerStep_of_inv hm inv]
    split <;> simp
  · exact walkerLoop_no_overflow hm fuel walkerInit (walkerInv_init _ _)

theorem walker_no_int_overflow_witness :
    |(⟨-1, 3, 3⟩ : WalkerState).position| ≤ (⟨-1, 3, 3⟩ : WalkerState).steps ∧
    (⟨-1, 3, 3⟩ : WalkerState).steps ≤ max 2147483647 0 ∧
    ((0 : Int) ≤ 4 → |(⟨-1, 3, 3⟩ : WalkerState).position| ≤ 4 + 1) ∧
    isInt32 (⟨-1, 3, 3⟩ : WalkerState).position ∧ isInt32 (⟨-1, 3, 3⟩ : WalkerState).steps ∧
    isInt32 (|(⟨-1, 3, 3⟩ : WalkerState).position|) ∧
    (⟨-1, 3, 3⟩ : WalkerState).position ≠ INT_MIN ∧
    walkerStep 4 2147483647 (fun i => i) ⟨-1, 3, 3⟩ ≠ .overflow ∧
    walkerLoop 4 2147483647 (fun i => i) 10 walkerInit ≠ .overflow :=
  walker_no_int_overflow 4 2147483647 (fun i => i) 3 10 ⟨-1, 3, 3⟩ (by decide) (by decide)

/-! ## Lemmas on the controller loop -/

theorem controllerStep_lt {total_walkers : Int} {c : Int} {m : Message} {rest : List Message}
    {log : List Event} (hc : c < total_walkers) (hm : m.payload.length = 1) :
    controllerStep total_walkers ⟨c, m :: rest, log⟩ =
      .next ⟨c + 1, rest, log ++ [.recv m.source m.tag]⟩ := by
  simp only [controllerStep, if_pos hc, if_pos hm]

theorem controllerStep_empty {total_walkers : Int} {c : Int} {log : List Event}
    (hc : c < total_walkers) : controllerStep total_walkers ⟨c, [], log⟩ = .blocked := by
  simp only [controllerStep, if_pos hc]

theorem controllerStep_ge {total_walkers : Int} {s : ControllerState}
    (hc : ¬ s.completed_walkers < total_walkers) : controllerStep total_walkers s = .exit := by
  simp only [controllerStep, if_neg hc]

/-- With `k` walkers still missing, `k` pending one-item messages and fuel
`k`, the loop receives exactly the first `k` messages and ends. -/
theorem controllerLoop_enough :
    ∀ (k fuel : Nat) (c : Int) (inbox : List Message) (log : List Event),
      (∀ m ∈ inbox, m.payload.length = 1) → k ≤ fuel → k ≤ inbox.length →
      controllerLoop (c + k) fuel ⟨c, inbox, log⟩ =
        .finished ⟨c + k, inbox.drop k,
          log ++ (inbox.take k).map (fun m => Event.recv m.source m.tag)⟩ := by
  intro k
  induction k with
  | zero =>
    intro fuel c inbox log _ _ _
    rw [controllerLoop, controllerStep_ge (by simp)]
    simp
  | succ k ih =>
    intro fuel c inbox log hall hf hlen
    obtain ⟨f, rfl⟩ : ∃ f, fuel = f + 1 := ⟨fuel - 1, by omega⟩
    match inbox, hall, hlen with
    | [], _, hlen => simp at hlen
    | m :: rest, hall, hlen =>
      have hm : m.payload.length = 1 := hall m (List.mem_cons_self _ _)
      have hrest : ∀ x ∈ rest, x.payload.length = 1 :=
        fun x hx => hall x (List.mem_cons_of_mem _ hx)
      rw [controllerLoop, controllerStep_lt (by push_cast; omega) hm]
      have := ih f (c + 1) rest (log ++ [.recv m.source m.tag]) hrest (by omega)
        (by simpa using hlen)
      have e : c + ((k + 1 : Nat) : Int) = c + 1 + (k : Int) := by push_cast; ring
      rw [e]
      show controllerLoop (c + 1 + k) f _ = _
      rw [this]
      simp

/-- With fewer pending one-item messages than walkers still missing, the
loop receives all of them and then waits forever in `MPI_Probe`. -/
theorem controllerLoop_short :
    ∀ (inbox : List Message) (fuel : Nat) (c total_walkers : Int) (log : List Event),
      (∀ m ∈ inbox, m.payload.length = 1) → inbox.length ≤ fuel →
      c + inbox.length < total_walkers →
      controllerLoop total_walkers fuel ⟨c, inbox, log⟩ =
        .blocked ⟨c + inbox.length, [],
          log ++ inbox.map (fun m => Event.recv m.source m.tag)⟩ := by
  intro inbox
  induction inbox with
  | nil =>
    intro fuel c total_walkers log _ _ hlt
    rw [controllerLoop, controllerStep_empty (by simpa using hlt)]
    simp
  | cons m rest ih =>
    intro fuel c total_walkers log hall hf hlt
    obtain ⟨f, rfl⟩ : ∃ f, fuel = f + 1 := ⟨fuel - 1, by simp at hf; omega⟩
    have hm : m.payload.length = 1 := hall m (List.mem_cons_self _ _)
    have hrest : ∀ x ∈ rest, x.payload.length = 1 :=
      fun x hx => hall x (List.mem_cons_of_mem _ hx)
    simp only [List.length_cons, Nat.cast_add, Nat.cast_one] at hlt
    rw [controllerLoop, controllerStep_lt (by omega) hm]
    show controllerLoop total_walkers f _ = _
    rw [ih f (c + 1) total_walkers _ hrest (by simpa using hf) (by omega)]
    simp only [List.length_cons, Nat.cast_add, Nat.cast_one, List.map_cons, List.append_assoc,
      List.singleton_append]
    congr 2
    ring

/-- Under one-item messages the `n`-th evaluation of the loop head, when it
happens, has received exactly the first `n` messages. -/
theorem controllerIter_spec :
    ∀ (n : Nat) (c total_walkers : Int) (inbox : List Message) (log : List Event)
      (t : ControllerState),
      (∀ m ∈ inbox, m.payload.length = 1) →
      controllerIter total_walkers n ⟨c, inbox, log⟩ = some t →
      n ≤ inbox.length ∧ (n = 0 ∨ c + n ≤ total_walkers) ∧
      t = ⟨c + n, inbox.drop n, log ++ (inbox.take n).map (fun m => Event.recv m.source m.tag)⟩ := by
  intro n
  induction n with
  | zero =>
    intro c total_walkers inbox log t _ h
    simp only [controllerIter, Option.some.injEq] at h
    subst h
    simp
  | succ n ih =>
    intro c total_walkers inbox log t hall h
    rw [controllerIter] at h
    by_cases hc : c < total_walkers
    · match inbox, hall, h with
      | [], _, h =>
        rw [controllerStep_empty hc] at h
        cases h
      | m :: rest, hall, h =>
        have hm : m.payload.length = 1 := hall m (List.mem_cons_self _ _)
        have hrest : ∀ x ∈ rest, x.payload.length = 1 :=
          fun x hx => hall x (List.mem_cons_of_mem _ hx)
        rw [controllerStep_lt hc hm] at h
        obtain ⟨h1, h2, h3⟩ := ih (c + 1) total_walkers rest _ t hrest h
        refine ⟨by simpa using h1, Or.inr ?_, ?_⟩
        · rcases h2 with h2 | h2
          · subst h2; push_cast; omega
          · push_cast; omega
        · rw [h3]
          simp only [List.drop_succ_cons, List.take_succ_cons, List.map_cons, List.append_assoc,
            List.singleton_append, Nat.cast_add, Nat.cast_one]
          congr 1
          ring
    · rw [controllerStep_ge hc] at h
      cases h

theorem controllerStep_next_one {total_walkers : Int} {s s1 : ControllerState}
    (hall : ∀ m ∈ s.inbox, m.payload.length = 1)
    (h : controllerStep total_walkers s = .next s1) :
    s1.completed_walkers = s.completed_walkers + 1 ∧ s1.inbox = s.inbox.tail ∧
      receipts s1.log = receipts s.log + 1 := by
  obtain ⟨c, inbox, log⟩ := s
  by_cases hc : c < total_walkers
  · match inbox, hall, h with
    | [], _, h =>
      rw [controllerStep_empty hc] at h
      cases h
    | m :: rest, hall, h =>
      rw [controllerStep_lt hc (hall m (List.mem_cons_self _ _))] at h
      injection h with h
      subst h
      simp [receipts]
  · rw [controllerStep_ge hc] at h
    cases h

theorem receipts_recvs (msgs : List Message) :
    receipts (msgs.map (fun m => Event.recv m.source m.tag)) = msgs.length := by
  induction msgs with
  | nil => rfl
  | cons m rest ih =>
    simp only [receipts, List.map_cons, List.countP_cons, List.length_cons] at ih ⊢
    simp [ih]

theorem printed_recvs (msgs : List Message) (line : String) :
    printed (msgs.map (fun m => Event.recv m.source m.tag) ++ [.cout line]) = [line] := by
  induction msgs with
  | nil => rfl
  | cons m rest ih =>
    simp only [printed, List.map_cons, List.cons_append, List.filterMap_cons] at ih ⊢
    exact ih

theorem printed_recvs_only (msgs : List Message) :
    printed (msgs.map (fun m => Event.recv m.source m.tag)) = [] := by
  induction msgs with
  | nil => rfl
  | cons m rest ih =>
    simp only [printed, List.map_cons, List.filterMap_cons] at ih ⊢
    exact ih

/-- The run of `controller_process` when at least `W` one-item messages
arrive. -/
theorem controller_process_enough (W : Nat) (inbox : List Message) (fuel : Nat)
    (hall : ∀ m ∈ inbox, m.payload.length = 1) (hf : W ≤ fuel) (hW : W ≤ inbox.length) :
    controllerLoop W fuel (controllerInit inbox) =
      .finished ⟨W, inbox.drop W, (inbox.take W).map (fun m => Event.recv m.source m.tag)⟩ ∧
    controller_process (W + 1) inbox fuel =
      ⟨.returned (), (inbox.take W).map (fun m => Event.recv m.source m.tag)
        ++ [.cout (controllerLine W)]⟩ := by
  have h := controllerLoop_enough W fuel 0 inbox [] hall hf hW
  simp only [zero_add, List.nil_append] at h
  change controllerLoop W fuel (controllerInit inbox) = _ at h
  refine ⟨h, ?_⟩
  simp only [controller_process, add_sub_cancel_right]
  rw [h]

/-- The run of `controller_process` when fewer than `W` one-item messages
arrive. -/
theorem controller_process_short (W : Nat) (inbox : List Message) (fuel : Nat)
    (hall : ∀ m ∈ inbox, m.payload.length = 1) (hf : W ≤ fuel) (hW : inbox.length < W) :
    controllerLoop W fuel (controllerInit inbox) =
      .blocked ⟨inbox.length, [], inbox.map (fun m => Event.recv m.source m.tag)⟩ ∧
    controller_process (W + 1) inbox fuel =
      ⟨.blocked, inbox.map (fun m => Event.recv m.source m.tag)⟩ := by
  have h := controllerLoop_short inbox fuel 0 W [] hall (by omega) (by omega)
  simp only [zero_add, List.nil_append] at h
  change controllerLoop W fuel (controllerInit inbox) = _ at h
  refine ⟨h, ?_⟩
  simp only [controller_process, add_sub_cancel_right]
  rw [h]

/-! ## The coordinator: tally, order insensitivity, summary -/

/-- C2: for `W` workers and one-item messages arriving at rank 0, the tally
starts at 0; at the `n`-th evaluation of the loop head exactly `n` messages
have been received, the tally is `n` and at most `W`, the loop is left there
exactly when the tally is `W`, and a further body adds exactly one; with at
least `W` arrivals the function returns after receiving exactly the first `W`
of them and prints its summary, with fewer it waits forever and prints
nothing. -/
theorem controller_tally (W : Nat) (inbox : List Message) (fuel : Nat)
    (hall : ∀ m ∈ inbox, m.payload.length = 1) (hf : W ≤ fuel) :
    (controllerInit inbox).completed_walkers = 0 ∧
    (∀ n t, controllerIter W n (controllerInit inbox) = some t →
      t.completed_walkers = n ∧ receipts t.log = n ∧ t.completed_walkers ≤ W ∧
      t.inbox = inbox.drop n ∧
      (controllerStep W t = .exit ↔ t.completed_walkers = W) ∧
      (∀ t1, controllerStep W t = .next t1 →
        t1.completed_walkers = t.completed_walkers + 1 ∧
        receipts t1.log = receipts t.log + 1)) ∧
    (W ≤ inbox.length →
      controllerLoop W fuel (controllerInit inbox) =
        .finished ⟨W, inbox.drop W, (inbox.take W).map (fun m => Event.recv m.source m.tag)⟩ ∧
      controller_process (W + 1) inbox fuel =
        ⟨.returned (), (inbox.take W).map (fun m => Event.recv m.source m.tag)
          ++ [.cout (controllerLine W)]⟩) ∧
    (inbox.length < W →
      controllerLoop W fuel (controllerInit inbox) =
        .blocked ⟨inbox.length, [], inbox.map (fun m => Event.recv m.source m.tag)⟩ ∧
      controller_process (W + 1) inbox fuel =
        ⟨.blocked, inbox.map (fun m => Event.recv m.source m.tag)⟩) := by
  refine ⟨rfl, ?_, controller_process_enough W inbox fuel hall hf,
    controller_process_short W inbox fuel hall hf⟩
  intro n t ht
  obtain ⟨h1, h2, rfl⟩ := controllerIter_spec n 0 W inbox [] t hall ht
  have hle : ((0 : Int) + n) ≤ W := by
    rcases h2 with h2 | h2
    · subst h2; simp
    · exact h2
  refine ⟨by simp, ?_, hle, rfl, ?_, ?_⟩
  · simp only [List.nil_append, receipts_recvs, List.length_take]
    omega
  · constructor
    · intro h
      by_contra hne
      have hlt : (0 : Int) + n < W := lt_of_le_of_ne hle hne
      unfold controllerStep at h
      rw [if_pos hlt] at h
      split at h
      · cases h
      · split at h <;> cases h
    · intro h
      have h0 : (0 : Int) + n = W := h
      exact controllerStep_ge (by show ¬ (0 : Int) + n < W; omega)
  · intro t1 hs
    have := controllerStep_next_one (fun m hm => hall m (List.mem_of_mem_drop hm)) hs
    exact ⟨this.1, this.2.2⟩

theorem controller_tally_witness :
    (∀ m ∈ [(⟨2, 0, [1]⟩ : Message), ⟨1, 0, [1]⟩, ⟨3, 0, [1]⟩], m.payload.length = 1) ∧
    2 ≤ 5 ∧
    (controllerInit [⟨2, 0, [1]⟩, ⟨1, 0, [1]⟩, ⟨3, 0, [1]⟩]).completed_walkers = 0 ∧
    (∀ n t, controllerIter (2 : Nat) n (controllerInit [⟨2, 0, [1]⟩, ⟨1, 0, [1]⟩, ⟨3, 0, [1]⟩])
        = some t →
      t.completed_walkers = n ∧ receipts t.log = n ∧ t.completed_walkers ≤ (2 : Nat) ∧
      t.inbox = [(⟨2, 0, [1]⟩ : Message), ⟨1, 0, [1]⟩, ⟨3, 0, [1]⟩].drop n ∧
      (controllerStep (2 : Nat) t = .exit ↔ t.completed_walkers = (2 : Nat)) ∧
      (∀ t1, controllerStep (2 : Nat) t = .next t1 →
        t1.completed_walkers = t.completed_walkers + 1 ∧
        receipts t1.log = receipts t.log + 1)) ∧
    (2 ≤ [(⟨2, 0, [1]⟩ : Message), ⟨1, 0, [1]⟩, ⟨3, 0, [1]⟩].length →
      controllerLoop (2 : Nat) 5 (controllerInit [⟨2, 0, [1]⟩, ⟨1, 0, [1]⟩, ⟨3, 0, [1]⟩]) =
        .finished ⟨(2 : Nat), [(⟨2, 0, [1]⟩ : Message), ⟨1, 0, [1]⟩, ⟨3, 0, [1]⟩].drop 2,
          ([(⟨2, 0, [1]⟩ : Message), ⟨1, 0, [1]⟩, ⟨3, 0, [1]⟩].take 2).map
            (fun m => Event.recv m.source m.tag)⟩ ∧
      controller_process ((2 : Nat) + 1) [⟨2, 0, [1]⟩, ⟨1, 0, [1]⟩, ⟨3, 0, [1]⟩] 5 =
        ⟨.returned (), ([(⟨2, 0, [1]⟩ : Message), ⟨1, 0, [1]⟩, ⟨3, 0, [1]⟩].take 2).map
            (fun m => Event.recv m.source m.tag) ++ [.cout (controllerLine (2 : Nat))]⟩) ∧
    ([(⟨2, 0, [1]⟩ : Message), ⟨1, 0, [1]⟩, ⟨3, 0, [1]⟩].length < 2 →
      controllerLoop (2 : Nat) 5 (controllerInit [⟨2, 0, [1]⟩, ⟨1, 0, [1]⟩, ⟨3, 0, [1]⟩]) =
        .blocked ⟨[(⟨2, 0, [1]⟩ : Message), ⟨1, 0, [1]⟩, ⟨3, 0, [1]⟩].length, [],
          [(⟨2, 0, [1]⟩ : Message), ⟨1, 0, [1]⟩, ⟨3, 0, [1]⟩].map
            (fun m => Event.recv m.source m.tag)⟩ ∧
      controller_process ((2 : Nat) + 1) [⟨2, 0, [1]⟩, ⟨1, 0, [1]⟩, ⟨3, 0, [1]⟩] 5 =
        ⟨.blocked, [(⟨2, 0, [1]⟩ : Message), ⟨1, 0, [1]⟩, ⟨3, 0, [1]⟩].map
            (fun m => Event.recv m.source m.tag)⟩) :=
  ⟨by decide, by decide,
    controller_tally 2 [⟨2, 0, [1]⟩, ⟨1, 0, [1]⟩, ⟨3, 0, [1]⟩] 5 (by decide) (by decide)⟩

/-- C8, as the code has it: once `W` one-item notifications have arrived,
`controller_process` returns and has printed exactly one line, which is
`Controller: All <W> walkers have finished.` with `<W>` in decimal. -/
theorem controller_summary_line (W : Nat) (inbox : List Message) (fuel : Nat)
    (hall : ∀ m ∈ inbox, m.payload.length = 1) (hW : W ≤ inbox.length) (hf : W ≤ fuel) :
    (controller_process (W + 1) inbox fuel).outcome = .returned () ∧
    printed (controller_process (W + 1) inbox fuel).log =
      ["Controller: All " ++ toString W ++ " walkers have finished." ++ "\n"] := by
  rw [(controller_process_enough W inbox fuel hall hf hW).2]
  exact ⟨rfl, printed_recvs _ _⟩

theorem controller_summary_line_witness :
    (∀ m ∈ [(⟨2, 0, [1]⟩ : Message), ⟨1, 0, [1]⟩, ⟨3, 0, [1]⟩], m.payload.length = 1) ∧
    3 ≤ [(⟨2, 0, [1]⟩ : Message), ⟨1, 0, [1]⟩, ⟨3, 0, [1]⟩].length ∧ 3 ≤ 3 ∧
    (controller_process ((3 : Nat) + 1) [⟨2, 0, [1]⟩, ⟨1, 0, [1]⟩, ⟨3, 0, [1]⟩] 3).outcome
      = .returned () ∧
    printed (controller_process ((3 : Nat) + 1) [⟨2, 0, [1]⟩, ⟨1, 0, [1]⟩, ⟨3, 0, [1]⟩] 3).log =
      ["Controller: All " ++ toString 3 ++ " walkers have finished." ++ "\n"] :=
  ⟨by decide, by decide, by decide,
    controller_summary_line 3 [⟨2, 0, [1]⟩, ⟨1, 0, [1]⟩, ⟨3, 0, [1]⟩] 3 (by decide) (by decide)
      (by decide)⟩

/-- C8 as written fails: for `W = 3` the line printed by the code is
`Controller: All 3 walkers have finished.`, which differs from the line
`Controller: All 3 workers have finished.` of the specification. -/
theorem controller_summary_not_spec_line :
    printed (controller_process 4 [⟨1, 0, [1]⟩, ⟨2, 0, [1]⟩, ⟨3, 0, [1]⟩] 3).log =
      ["Controller: All 3 walkers have finished.\n"] ∧
    specControllerLine 3 = "Controller: All 3 workers have finished." ∧
    printed (controller_process 4 [⟨1, 0, [1]⟩, ⟨2, 0, [1]⟩, ⟨3, 0, [1]⟩] 3).log ≠
      [specControllerLine 3 ++ "\n"] ∧
    printed (controller_process 4 [⟨1, 0, [1]⟩, ⟨2, 0, [1]⟩, ⟨3, 0, [1]⟩] 3).log ≠
      [specControllerLine 3] := by
  decide

/-- What an observer sees of a run of `controller_process` depends only on
how many one-item messages arrive. -/
theorem controller_depends_on_length (W : Nat) (inbox1 inbox2 : List Message) (fuel : Nat)
    (h1 : ∀ m ∈ inbox1, m.payload.length = 1) (h2 : ∀ m ∈ inbox2, m.payload.length = 1)
    (hlen : inbox1.length = inbox2.length) (hf : W ≤ fuel) :
    (controller_process (W + 1) inbox1 fuel).outcome =
      (controller_process (W + 1) inbox2 fuel).outcome ∧
    printed (controller_process (W + 1) inbox1 fuel).log =
      printed (controller_process (W + 1) inbox2 fuel).log ∧
    receipts (controller_process (W + 1) inbox1 fuel).log =
      receipts (controller_process (W + 1) inbox2 fuel).log ∧
    (controllerLoop W fuel (controllerInit inbox1)).state.completed_walkers =
      (controllerLoop W fuel (controllerInit inbox2)).state.completed_walkers := by
  rcases Nat.lt_or_ge inbox1.length W with hlt | hge
  · obtain ⟨a1, b1⟩ := controller_process_short W inbox1 fuel h1 hf hlt
    obtain ⟨a2, b2⟩ := controller_process_short W inbox2 fuel h2 hf (hlen ▸ hlt)
    rw [a1, a2, b1, b2]
    refine ⟨rfl, ?_, ?_, ?_⟩
    · simp only [printed_recvs_only]
    · simp only [receipts_recvs, hlen]
    · simp only [ControllerEnd.state, hlen]
  · obtain ⟨a1, b1⟩ := controller_process_enough W inbox1 fuel h1 hf hge
    obtain ⟨a2, b2⟩ := controller_process_enough W inbox2 fuel h2 hf (hlen ▸ hge)
    rw [a1, a2, b1, b2]
    refine ⟨rfl, ?_, ?_, rfl⟩
    · simp only [printed_recvs]
    · simp only [receipts, List.countP_append, List.countP_cons, List.countP_nil]
      have e1 := receipts_recvs (inbox1.take W)
      have e2 := receipts_recvs (inbox2.take W)
      simp only [receipts] at e1 e2
      rw [e1, e2, List.length_take, List.length_take, hlen]

/-- C4: for two arrival orders of the same one-item notifications (one a
permutation of the other) `controller_process` ends the same way, with the
same tally, the same number of receipts and the same printed text; when the
notifications are those of the `W` workers, one each, both runs return after
exactly `W` receipts with tally `W`, nothing left pending, and the same
summary line. -/
theorem controller_order_insensitive (W : Nat) (inbox1 inbox2 : List Message) (fuel : Nat)
    (h1 : ∀ m ∈ inbox1, m.payload.length = 1) (hp : inbox1.Perm inbox2) (hf : W ≤ fuel) :
    (controller_process (W + 1) inbox1 fuel).outcome =
      (controller_process (W + 1) inbox2 fuel).outcome ∧
    printed (controller_process (W + 1) inbox1 fuel).log =
      printed (controller_process (W + 1) inbox2 fuel).log ∧
    receipts (controller_process (W + 1) inbox1 fuel).log =
      receipts (controller_process (W + 1) inbox2 fuel).log ∧
    (controllerLoop W fuel (controllerInit inbox1)).state.completed_walkers =
      (controllerLoop W fuel (controllerInit inbox2)).state.completed_walkers ∧
    (inbox1.length = W →
      (controller_process (W + 1) inbox2 fuel).outcome = .returned () ∧
      receipts (controller_process (W + 1) inbox2 fuel).log = W ∧
      printed (controller_process (W + 1) inbox2 fuel).log = [controllerLine W] ∧
      (controllerLoop W fuel (controllerInit inbox2)).state.completed_walkers = W ∧
      (controllerLoop W fuel (controllerInit inbox2)).state.inbox = []) := by
  have h2 : ∀ m ∈ inbox2, m.payload.length = 1 := fun m hm => h1 m (hp.mem_iff.mpr hm)
  have hlen := hp.length_eq
  obtain ⟨e1, e2, e3, e4⟩ := controller_depends_on_length W inbox1 inbox2 fuel h1 h2 hlen hf
  refine ⟨e1, e2, e3, e4, ?_⟩
  intro hW
  have hW2 : inbox2.length = W := by omega
  obtain ⟨a2, b2⟩ := controller_process_enough W inbox2 fuel h2 hf (by omega)
  rw [a2, b2]
  refine ⟨rfl, ?_, printed_recvs _ _, rfl, ?_⟩
  · simp only [receipts, List.countP_append, List.countP_cons, List.countP_nil]
    have e := receipts_recvs (inbox2.take W)
    simp only [receipts] at e
    rw [e, List.length_take]
    simp [hW2]
  · simp only [ControllerEnd.state]
    exact List.drop_eq_nil_of_le (by omega)

theorem controller_order_insensitive_witness :
    (∀ m ∈ [(⟨1, 0, [1]⟩ : Message), ⟨2, 0, [1]⟩, ⟨3, 0, [1]⟩], m.payload.length = 1) ∧
    [(⟨1, 0, [1]⟩ : Message), ⟨2, 0, [1]⟩, ⟨3, 0, [1]⟩].Perm
      [⟨3, 0, [1]⟩, ⟨1, 0, [1]⟩, ⟨2, 0, [1]⟩] ∧
    3 ≤ 4 ∧
    (controller_process ((3 : Nat) + 1) [⟨1, 0, [1]⟩, ⟨2, 0, [1]⟩, ⟨3, 0, [1]⟩] 4).outcome =
      (controller_process ((3 : Nat) + 1) [⟨3, 0, [1]⟩, ⟨1, 0, [1]⟩, ⟨2, 0, [1]⟩] 4).outcome ∧
    printed (controller_process ((3 : Nat) + 1) [⟨1, 0, [1]⟩, ⟨2, 0, [1]⟩, ⟨3, 0, [1]⟩] 4).log =
      printed (controller_process ((3 : Nat) + 1) [⟨3, 0, [1]⟩, ⟨1, 0, [1]⟩, ⟨2, 0, [1]⟩] 4).log ∧
    receipts (controller_process ((3 : Nat) + 1) [⟨1, 0, [1]⟩, ⟨2, 0, [1]⟩, ⟨3, 0, [1]⟩] 4).log =
      receipts (controller_process ((3 : Nat) + 1) [⟨3, 0, [1]⟩, ⟨1, 0, [1]⟩, ⟨2, 0, [1]⟩] 4).log ∧
    (controllerLoop (3 : Nat) 4
        (controllerInit [⟨1, 0, [1]⟩, ⟨2, 0, [1]⟩, ⟨3, 0, [1]⟩])).state.completed_walkers =
      (controllerLoop (3 : Nat) 4
        (controllerInit [⟨3, 0, [1]⟩, ⟨1, 0, [1]⟩, ⟨2, 0, [1]⟩])).state.completed_walkers ∧
    ([(⟨1, 0, [1]⟩ : Message), ⟨2, 0, [1]⟩, ⟨3, 0, [1]⟩].length = 3 →
      (controller_process ((3 : Nat) + 1) [⟨3, 0, [1]⟩, ⟨1, 0, [1]⟩, ⟨2, 0, [1]⟩] 4).outcome
        = .returned () ∧
      receipts (controller_process ((3 : Nat) + 1)
        [⟨3, 0, [1]⟩, ⟨1, 0, [1]⟩, ⟨2, 0, [1]⟩] 4).log = 3 ∧
      printed (controller_process ((3 : Nat) + 1)
        [⟨3, 0, [1]⟩, ⟨1, 0, [1]⟩, ⟨2, 0, [1]⟩] 4).log = [controllerLine (3 : Nat)] ∧
      (controllerLoop (3 : Nat) 4
        (controllerInit [⟨3, 0, [1]⟩, ⟨1, 0, [1]⟩, ⟨2, 0, [1]⟩])).state.completed_walkers
        = (3 : Nat) ∧
      (controllerLoop (3 : Nat) 4
        (controllerInit [⟨3, 0, [1]⟩, ⟨1, 0, [1]⟩, ⟨2, 0, [1]⟩])).state.inbox = []) :=
  ⟨by decide, by decide, by decide,
    controller_order_insensitive 3 [⟨1, 0, [1]⟩, ⟨2, 0, [1]⟩, ⟨3, 0, [1]⟩]
      [⟨3, 0, [1]⟩, ⟨1, 0, [1]⟩, ⟨2, 0, [1]⟩] 4 (by decide) (by decide) (by decide)⟩

/-! ## The lines and the notification of a walker -/

/-- With fuel for an `int` step budget `walker_process` returns, and its log
is the line of line 79 followed by the send of line 83. -/
theorem walker_process_returns (stdRand : Nat → Nat → Nat)
    (now world_rank domain_size max_steps : Int) (fuel : Nat)
    (hm : isInt32 max_steps) (hf : max_steps.toNat ≤ fuel) :
    ∃ t, walkerLoop domain_size max_steps (stdRand (walkerSeed now world_rank)) fuel walkerInit
        = .finished t ∧
      walker_process stdRand now world_rank domain_size max_steps fuel =
        ⟨.returned (), [.cout (walkerLine world_rank t.steps), .send [1] 0 0]⟩ := by
  obtain ⟨t, ht, -⟩ :=
    @walkerLoop_spec domain_size _ (stdRand (walkerSeed now world_rank))
      hm fuel walkerInit (walkerInv_init _ _) (by simpa [walkerInit] using hf)
  refine ⟨t, ht, ?_⟩
  rw [walker_process, ht]

/-- C9, as the code has it: for every rank and every `int` step budget, with
fuel for the budget the loop ends in a state `t` and `walker_process` returns
having done exactly two things, in this order: it printed
`Rank <id>: Walker finished in <steps> steps.` (decimal `id` and `t.steps`),
then it sent one `int` of value 1 to rank 0 with tag 0. -/
theorem walker_line_then_send (stdRand : Nat → Nat → Nat)
    (now world_rank domain_size max_steps : Int) (fuel : Nat)
    (hm : isInt32 max_steps) (hf : max_steps.toNat ≤ fuel) :
    ∃ t, walkerLoop domain_size max_steps (stdRand (walkerSeed now world_rank)) fuel walkerInit
        = .finished t ∧
      walker_process stdRand now world_rank domain_size max_steps fuel =
        ⟨.returned (), [.cout ("Rank " ++ toString world_rank ++ ": Walker finished in "
          ++ toString t.steps ++ " steps." ++ "\n"), .send [1] 0 0]⟩ := by
  obtain ⟨t, ht, hp⟩ :=
    walker_process_returns stdRand now world_rank domain_size max_steps fuel hm hf
  exact ⟨t, ht, hp⟩

theorem walker_line_then_send_witness :
    isInt32 6 ∧ (6 : Int).toNat ≤ 6 ∧
    ∃ t, walkerLoop 2 6 ((fun _ i => i) (walkerSeed 1000 2)) 6 walkerInit = .finished t ∧
      walker_process (fun _ i => i) 1000 2 2 6 6 =
        ⟨.returned (), [.cout ("Rank " ++ toString (2 : Int) ++ ": Walker finished in "
          ++ toString t.steps ++ " steps." ++ "\n"), .send [1] 0 0]⟩ :=
  ⟨by decide, by decide,
    walker_line_then_send (fun _ i => i) 1000 2 2 6 6 (by decide) (by decide)⟩

/-- C9 as written fails: for rank 1 and a walk of 1 step the code prints
`Rank 1: Walker finished in 1 steps.`, which differs from the line
`Worker 1: finished in 1 steps.` of the specification. -/
theorem walker_line_not_spec_line :
    walker_process (fun _ _ => 1) 0 1 0 5 5 =
      ⟨.returned (), [.cout "Rank 1: Walker finished in 1 steps.\n", .send [1] 0 0]⟩ ∧
    specWorkerLine 1 1 = "Worker 1: finished in 1 steps." ∧
    printed (walker_process (fun _ _ => 1) 0 1 0 5 5).log ≠ [specWorkerLine 1 1 ++ "\n"] ∧
    printed (walker_process (fun _ _ => 1) 0 1 0 5 5).log ≠ [specWorkerLine 1 1] := by
  decide

/-! ## Lemmas on `main` -/

theorem main_bad_args (env : Env) (argv : List String) (fuel : Nat)
    (h : (argv.length : Int) ≠ 3) (hargv : argv ≠ []) :
    main env argv fuel = ⟨.returned 1,
      [.mpiInit] ++ (if env.world_rank = 0 then [.cerr (usageLine (argv.head hargv))] else [])
        ++ [.mpiFinalize]⟩ := by
  match argv, hargv, h with
  | argv0 :: rest, _, h =>
    by_cases hr : env.world_rank = 0
    · simp only [main, if_pos h, if_pos hr, List.head_cons]
      rfl
    · simp only [main, if_pos h, if_neg hr]
      rfl

/-- A rank other than 0 does not touch `argv[0]`. -/
theorem main_bad_args_walker (env : Env) (argv : List String) (fuel : Nat)
    (h : (argv.length : Int) ≠ 3) (hr : env.world_rank ≠ 0) :
    main env argv fuel = ⟨.returned 1, [.mpiInit, .mpiFinalize]⟩ := by
  simp only [main, if_pos h, if_neg hr]

/-- Without any argument, not even the program name, rank 0 gives a null
pointer to `std::cerr` and `main` has no defined result. -/
theorem main_null_argv0 (env : Env) (fuel : Nat) (hr : env.world_rank = 0) :
    main env [] fuel = ⟨.undefined, [.mpiInit, .cerr "Usage: mpirun -np <num_processes> "]⟩ := by
  simp only [main, if_pos hr]
  rfl

theorem main_walker (env : Env) (argv : List String) (fuel : Nat)
    (h : (argv.length : Int) = 3) (hr : env.world_rank ≠ 0)
    (hm : isInt32 (env.atoi (argv.getD 2 ""))) (hf : (env.atoi (argv.getD 2 "")).toNat ≤ fuel) :
    ∃ steps : Int, main env argv fuel = ⟨.returned 0,
      [.mpiInit, .cout (walkerLine env.world_rank steps), .send [1] 0 0, .mpiFinalize]⟩ := by
  obtain ⟨t, -, ht⟩ := walker_process_returns env.stdRand env.now env.world_rank
    (env.atoi (argv.getD 1 "")) (env.atoi (argv.getD 2 "")) fuel hm hf
  refine ⟨t.steps, ?_⟩
  simp only [main, h, ne_eq, not_true_eq_false, if_false, if_neg hr, ht]
  rfl

theorem controller_process_returns (world_size : Int) (inbox : List Message) (fuel : Nat)
    (hall : ∀ m ∈ inbox, m.payload.length = 1)
    (hlen : (world_size - 1).toNat ≤ inbox.length) (hf : (world_size - 1).toNat ≤ fuel) :
    (controller_process world_size inbox fuel).outcome = .returned () ∧
    printed (controller_process world_size inbox fuel).log =
      [controllerLine (world_size - 1)] := by
  rcases le_or_lt 1 world_size with h1 | h1
  · obtain ⟨W, rfl⟩ : ∃ W : Nat, world_size = W + 1 := ⟨(world_size - 1).toNat, by omega⟩
    simp only [add_sub_cancel_right, Int.toNat_ofNat] at hlen hf ⊢
    rw [(controller_process_enough W inbox fuel hall hf hlen).2]
    exact ⟨rfl, printed_recvs _ _⟩
  · have hl : controllerLoop (world_size - 1) fuel (controllerInit inbox) =
        .finished (controllerInit inbox) := by
      rw [controllerLoop, controllerStep_ge (by simp only [controllerInit]; omega)]
    simp only [controller_process]
    rw [hl]
    exact ⟨rfl, rfl⟩

theorem main_controller (env : Env) (argv : List String) (fuel : Nat)
    (h : (argv.length : Int) = 3) (hr : env.world_rank = 0)
    (hall : ∀ m ∈ env.inbox, m.payload.length = 1)
    (hlen : (env.world_size - 1).toNat ≤ env.inbox.length)
    (hf : (env.world_size - 1).toNat ≤ fuel) :
    (main env argv fuel).outcome = .returned 0 ∧
    printed (main env argv fuel).log = [controllerLine (env.world_size - 1)] := by
  obtain ⟨h1, h2⟩ := controller_process_returns env.world_size env.inbox fuel hall hlen hf
  simp only [main, h, ne_eq, not_true_eq_false, if_false, if_pos hr, h1]
  refine ⟨trivial, ?_⟩
  simpa [printed] using h2

/-- Whenever `main` returns with three arguments, it returns 0. -/
theorem main_three_args_code (env : Env) (argv : List String) (fuel : Nat)
    (h : (argv.length : Int) = 3) (c : Int) (hc : (main env argv fuel).outcome = .returned c) :
    c = 0 := by
  simp only [main, h, ne_eq, not_true_eq_false, if_false] at hc
  split at hc
  · injection hc with hc
    exact hc.symm
  · cases hc
  · cases hc
  · cases hc
  · cases hc

/-! ## Lemmas on a job -/

theorem job_mem {world_size : Nat} {envOf : Nat → Env} {argv : List String} {fuel : Nat}
    {run : Run Int} (h : run ∈ job world_size envOf argv fuel) :
    ∃ r, r < world_size ∧
      run = main { envOf r with world_size := world_size, world_rank := r } argv fuel := by
  simp only [job, List.mem_map, List.mem_range] at h
  obtain ⟨r, hr, rfl⟩ := h
  exact ⟨r, hr, rfl⟩

theorem diagnosed_nonzero_ranks (world_size : Nat) (envOf : Nat → Env) (argv : List String)
    (fuel : Nat) (h : (argv.length : Int) ≠ 3) :
    ∀ l : List Nat, (∀ r ∈ l, r ≠ 0) →
      (l.map fun r =>
        main { envOf r with world_size := world_size, world_rank := r } argv fuel).flatMap
        (fun run => diagnosed run.log) = [] := by
  intro l
  induction l with
  | nil => intro _; rfl
  | cons r rest ih =>
    intro hl
    have hr : ((r : Nat) : Int) ≠ 0 := by
      have := hl r (List.mem_cons_self _ _)
      exact_mod_cast this
    rw [List.map_cons, List.flatMap_cons, ih (fun x hx => hl x (List.mem_cons_of_mem _ hx)),
      main_bad_args_walker _ _ _ h hr]
    rfl

/-- With a wrong argument count the usage text is written once in the whole
job. -/
theorem job_usage_once (world_size : Nat) (envOf : Nat → Env) (argv : List String)
    (fuel : Nat) (h : (argv.length : Int) ≠ 3) (hargv : argv ≠ []) (hw : 1 ≤ world_size) :
    (job world_size envOf argv fuel).flatMap (fun run => diagnosed run.log) =
      [usageLine (argv.head hargv)] := by
  obtain ⟨n, rfl⟩ : ∃ n, world_size = n + 1 := ⟨world_size - 1, by omega⟩
  rw [job, List.range_succ_eq_map, List.map_cons, List.flatMap_cons,
    diagnosed_nonzero_ranks (n + 1) envOf argv fuel h _ (by simp),
    main_bad_args _ _ _ h hargv]
  rfl

theorem notifications_of_walkers (world_size : Nat) (envOf : Nat → Env) (argv : List String)
    (fuel : Nat) (h : (argv.length : Int) = 3)
    (hm : ∀ r, isInt32 ((envOf r).atoi (argv.getD 2 "")) ∧
      ((envOf r).atoi (argv.getD 2 "")).toNat ≤ fuel) :
    ∀ l : List Nat, (∀ r ∈ l, r ≠ 0) →
      l.flatMap (fun r => sent r
        (main { envOf r with world_size := world_size, world_rank := r } argv fuel).log) =
      l.map (fun r : Nat => (⟨(r : Int), 0, [1]⟩ : Message)) := by
  intro l
  induction l with
  | nil => intro _; rfl
  | cons r rest ih =>
    intro hl
    have hr : ((r : Nat) : Int) ≠ 0 := by
      have := hl r (List.mem_cons_self _ _)
      exact_mod_cast this
    obtain ⟨steps, hs⟩ := main_walker
      { envOf r with world_size := world_size, world_rank := r } argv fuel h hr (hm r).1 (hm r).2
    rw [List.flatMap_cons, ih (fun x hx => hl x (List.mem_cons_of_mem _ hx)), hs]
    rfl

/-- With three arguments, `int` step budgets and enough fuel, every rank of
a job returns 0 as soon as the messages arriving at rank 0 are the
notifications of the other ranks, in any order. -/
theorem job_all_return_zero (world_size : Nat) (envOf : Nat → Env) (argv : List String)
    (fuel : Nat) (h : (argv.length : Int) = 3)
    (hm : ∀ r, isInt32 ((envOf r).atoi (argv.getD 2 "")) ∧
      ((envOf r).atoi (argv.getD 2 "")).toNat ≤ fuel)
    (hf : world_size - 1 ≤ fuel)
    (hp : (envOf 0).inbox.Perm (notifications world_size envOf argv fuel)) :
    ∀ run ∈ job world_size envOf argv fuel, run.outcome = .returned 0 := by
  intro run hrun
  obtain ⟨r, -, rfl⟩ := job_mem hrun
  have hn := notifications_of_walkers world_size envOf argv fuel h hm
    (List.range' 1 (world_size - 1)) (fun x hx => by
      have := (List.mem_range'_1.mp hx).1
      omega)
  rcases Nat.eq_zero_or_pos r with h0 | h0
  · subst h0
    have hnot : notifications world_size envOf argv fuel =
        (List.range' 1 (world_size - 1)).map (fun r : Nat => (⟨(r : Int), 0, [1]⟩ : Message)) := hn
    rw [hnot] at hp
    have hall : ∀ m ∈ (envOf 0).inbox, m.payload.length = 1 := by
      intro m hmem
      have := hp.mem_iff.mp hmem
      simp only [List.mem_map] at this
      obtain ⟨x, -, rfl⟩ := this
      rfl
    have hlen : (envOf 0).inbox.length = world_size - 1 := by
      rw [hp.length_eq, List.length_map, List.length_range']
    have hW : (((world_size : Nat) : Int) - 1).toNat = world_size - 1 := by omega
    exact (main_controller { envOf 0 with world_size := world_size, world_rank := (0 : Nat) }
      argv fuel h rfl hall (by simp only [hW, hlen, le_refl]) (by simp only [hW, hf])).1
  · have hr : ((r : Nat) : Int) ≠ 0 := by
      have : r ≠ 0 := by omega
      exact_mod_cast this
    obtain ⟨steps, hs⟩ := main_walker
      { envOf r with world_size := world_size, world_rank := r } argv fuel h hr (hm r).1 (hm r).2
    rw [hs]

theorem main_bad_args_quiet (env : Env) (argv : List String) (fuel : Nat)
    (h : (argv.length : Int) ≠ 3) (hargv : argv ≠ []) :
    printed (main env argv fuel).log = [] ∧
    (∀ r, sent r (main env argv fuel).log = []) ∧
    receipts (main env argv fuel).log = 0 ∧
    diagnosed (main env argv fuel).log =
      (if env.world_rank = 0 then [usageLine (argv.head hargv)] else []) := by
  rw [main_bad_args env argv fuel h hargv]
  by_cases hr : env.world_rank = 0
  · simp only [if_pos hr]
    exact ⟨rfl, fun _ => rfl, rfl, rfl⟩
  · simp only [if_neg hr]
    exact ⟨rfl, fun _ => rfl, rfl, rfl⟩

/-! ## Exit code and usage message -/

/-- C7: for a process started with its program name (`argv` not empty, so
`argv[0]` is not null), `main` returns 1 exactly when `argc ≠ 3`, and a
returning `main` with `argc = 3` returns 0.  With `argc ≠ 3` a process only
initialises MPI, writes the usage text to `std::cerr` if it is rank 0, and
finalises: it prints nothing on `std::cout`, sends and receives nothing, and
over a whole job the usage text is written exactly once.  With `argc = 3` a
walker rank returns 0 given fuel for its `int` step budget, rank 0 returns 0
once the one-item notifications of its `world_size - 1` walkers arrive, and
so every rank of a job returns 0 when the messages arriving at rank 0 are the
notifications sent by the other ranks, in any order. -/
theorem main_exit_code (env : Env) (argv : List String) (fuel : Nat)
    (world_size : Nat) (envOf : Nat → Env) (hargv : argv ≠ []) :
    ((main env argv fuel).outcome = .returned 1 ↔ (argv.length : Int) ≠ 3) ∧
    ((argv.length : Int) ≠ 3 →
      main env argv fuel = ⟨.returned 1,
        [.mpiInit] ++ (if env.world_rank = 0 then [.cerr (usageLine (argv.head hargv))] else [])
          ++ [.mpiFinalize]⟩ ∧
      printed (main env argv fuel).log = [] ∧
      (∀ r, sent r (main env argv fuel).log = []) ∧
      receipts (main env argv fuel).log = 0 ∧
      diagnosed (main env argv fuel).log =
        (if env.world_rank = 0 then [usageLine (argv.head hargv)] else [])) ∧
    ((argv.length : Int) ≠ 3 → 1 ≤ world_size →
      (∀ run ∈ job world_size envOf argv fuel,
        run.outcome = .returned 1 ∧ printed run.log = [] ∧ ∀ r, sent r run.log = []) ∧
      (job world_size envOf argv fuel).flatMap (fun run => diagnosed run.log) =
        [usageLine (argv.head hargv)]) ∧
    ((argv.length : Int) = 3 → ∀ c, (main env argv fuel).outcome = .returned c → c = 0) ∧
    ((argv.length : Int) = 3 → env.world_rank ≠ 0 → isInt32 (env.atoi (argv.getD 2 "")) →
      (env.atoi (argv.getD 2 "")).toNat ≤ fuel → (main env argv fuel).outcome = .returned 0) ∧
    ((argv.length : Int) = 3 → env.world_rank = 0 →
      (∀ m ∈ env.inbox, m.payload.length = 1) →
      (env.world_size - 1).toNat ≤ env.inbox.length → (env.world_size - 1).toNat ≤ fuel →
      (main env argv fuel).outcome = .returned 0) ∧
    ((argv.length : Int) = 3 →
      (∀ r, isInt32 ((envOf r).atoi (argv.getD 2 "")) ∧
        ((envOf r).atoi (argv.getD 2 "")).toNat ≤ fuel) →
      world_size - 1 ≤ fuel →
      (envOf 0).inbox.Perm (notifications world_size envOf argv fuel) →
      ∀ run ∈ job world_size envOf argv fuel, run.outcome = .returned 0) := by
  refine ⟨⟨?_, ?_⟩, ?_, ?_, ?_, ?_, ?_, ?_⟩
  · intro h1 h3
    have := main_three_args_code env argv fuel h3 1 h1
    omega
  · intro h
    rw [main_bad_args env argv fuel h hargv]
  · intro h
    exact ⟨main_bad_args env argv fuel h hargv, main_bad_args_quiet env argv fuel h hargv⟩
  · intro h hw
    refine ⟨?_, job_usage_once world_size envOf argv fuel h hargv hw⟩
    intro run hrun
    obtain ⟨r, -, rfl⟩ := job_mem hrun
    have hq := main_bad_args_quiet
      { envOf r with world_size := world_size, world_rank := r } argv fuel h hargv
    refine ⟨?_, hq.1, hq.2.1⟩
    rw [main_bad_args _ argv fuel h hargv]
  · intro h c hc
    exact main_three_args_code env argv fuel h c hc
  · intro h hr hm hf
    obtain ⟨steps, hs⟩ := main_walker env argv fuel h hr hm hf
    rw [hs]
  · intro h hr hall hlen hf
    exact (main_controller env argv fuel h hr hall hlen hf).1
  · intro h hm hf hp
    exact job_all_return_zero world_size envOf argv fuel h hm hf hp

theorem main_exit_code_witness :
    (["walk"] : List String) ≠ [] ∧ (["walk", "5", "2"] : List String) ≠ [] ∧
    (main ⟨3, 0, 0, fun _ i => i, fun _ => 2, []⟩ ["walk"] 0).outcome = .returned 1 ∧
    diagnosed (main ⟨3, 0, 0, fun _ i => i, fun _ => 2, []⟩ ["walk"] 0).log =
      ["Usage: mpirun -np <num_processes> walk <domain_size> <max_steps>\n"] ∧
    (∀ run ∈ job 3 (fun _ => ⟨3, 0, 0, fun _ i => i, fun _ => 2, [⟨2, 0, [1]⟩, ⟨1, 0, [1]⟩]⟩)
      ["walk", "5", "2"] 2, run.outcome = .returned 0) :=
  ⟨by decide, by decide,
    (main_exit_code ⟨3, 0, 0, fun _ i => i, fun _ => 2, []⟩ ["walk"] 0 3
      (fun _ => ⟨3, 0, 0, fun _ i => i, fun _ => 2, []⟩) (by decide)).1.mpr (by decide),
    ((main_exit_code ⟨3, 0, 0, fun _ i => i, fun _ => 2, []⟩ ["walk"] 0 3
      (fun _ => ⟨3, 0, 0, fun _ i => i, fun _ => 2, []⟩) (by decide)).2.1 (by decide)).2.2.2.2,
    (main_exit_code ⟨3, 0, 0, fun _ i => i, fun _ => 2, []⟩ ["walk", "5", "2"] 2 3
      (fun _ => ⟨3, 0, 0, fun _ i => i, fun _ => 2, [⟨2, 0, [1]⟩, ⟨1, 0, [1]⟩]⟩)
      (by decide)).2.2.2.2.2.2
      (by decide) (fun _ => ⟨by decide, by decide⟩) (by decide) (by decide)⟩

end RandomWalk
